import Mathlib

/-!
Verification of the PCD (point-cloud) file analyzer (`analyze_pcd.py`).

The analyzer is embedded shallowly:
* the file is a `List Nat` of byte values;
* header lines are byte lists; the UTF-8 `errors='ignore'` decode is modelled
  on the ASCII subalphabet (bytes ≥ 0x80, which in the ASCII-only inputs of
  interest are invalid UTF-8 and hence dropped by Python, are filtered out);
* Python exceptions are an explicit `PyErr` value: exceptions that escape
  `analyze_pcd_file` surface as `Except.error`, exceptions swallowed by the
  `try/except` around record decoding surface as an `Option PyErr` note;
* `struct.unpack('<f', b)` is modelled by the 32-bit little-endian word
  (the IEEE-754 bit pattern) carried in `Val.f32`.
-/

/-- Python exception kinds that the analyzer can raise. -/
inductive PyErr where
  | keyError
  | indexError
  | valueError
  | nameError
  | structError
deriving DecidableEq

/-- A decoded field value: `f32` carries the 32-bit little-endian word that
`struct.unpack('<f', ·)` reinterprets as an IEEE-754 single (bit pattern);
`u8` carries the byte from `struct.unpack('<B', ·)`. -/
inductive Val where
  | f32 (bits : Nat)
  | u8 (v : Nat)
deriving DecidableEq

/-- The encoding note printed by lines 84-90 of the source. -/
inductive EncodingNote where
  | compressedNeedsDecompression
  | binaryPlain
  | asciiPlain
deriving DecidableEq

/-- Byte values of a Lean string literal (ASCII inputs only are used). -/
def strBytes (s : String) : List Nat :=
  s.data.map Char.toNat

/-- Whitespace bytes stripped/split by Python `str.strip` / `str.split`. -/
def isSpaceByte (b : Nat) : Bool :=
  b = 32 ∨ b = 9 ∨ b = 10 ∨ b = 13 ∨ b = 11 ∨ b = 12

/-- `bytes.decode('utf-8', errors='ignore')` restricted to the ASCII
subalphabet: ASCII bytes survive, other bytes are dropped. -/
def decodeIgnore (l : List Nat) : List Nat :=
  l.filter (fun b => b < 128)

/-- Python `str.strip()`. -/
def pyStrip (l : List Nat) : List Nat :=
  ((l.dropWhile isSpaceByte).reverse.dropWhile isSpaceByte).reverse

/-- Helper for `pySplit`: accumulates the current (reversed) token. -/
def pySplitAux : List Nat → List Nat → List (List Nat)
  | [], cur => if cur = [] then [] else [cur.reverse]
  | b :: rest, cur =>
    if isSpaceByte b then
      if cur = [] then pySplitAux rest [] else cur.reverse :: pySplitAux rest []
    else pySplitAux rest (b :: cur)

/-- Python `str.split()` (split on whitespace runs, no empty tokens). -/
def pySplit (l : List Nat) : List (List Nat) :=
  pySplitAux l []

/-- Digits of a token folded into a natural number. -/
def digitsVal : List Nat → Nat → Nat
  | [], acc => acc
  | d :: r, acc => digitsVal r (acc * 10 + (d - 48))

/-- ASCII digit test. -/
def isDigitByte (b : Nat) : Bool :=
  decide (48 ≤ b ∧ b ≤ 57)

/-- Python `int(token)` on the sign-and-digits subalphabet; anything else
raises `ValueError`. -/
def pyInt (tok : List Nat) : Except PyErr Int :=
  match tok with
  | 45 :: rest =>
    if rest ≠ [] ∧ rest.all isDigitByte then .ok (-(digitsVal rest 0 : Int))
    else .error .valueError
  | 43 :: rest =>
    if rest ≠ [] ∧ rest.all isDigitByte then .ok (digitsVal rest 0 : Int)
    else .error .valueError
  | _ =>
    if tok ≠ [] ∧ tok.all isDigitByte then .ok (digitsVal tok 0 : Int)
    else .error .valueError

/-- The `header_info` dict built from the header lines (lines 41-58). -/
structure HeaderInfo where
  fields : Option (List (List Nat))
  sizes : Option (List Int)
  types : Option (List (List Nat))
  counts : Option (List Int)
  width : Option Int
  height : Option Int
  points : Option Int
  data_type : Option (List Nat)
deriving DecidableEq

/-- The empty `header_info` dict. -/
def emptyInfo : HeaderInfo :=
  ⟨none, none, none, none, none, none, none, none⟩

/-- The three sentinel `DATA` lines that terminate the header (line 32). -/
def isSentinel (l : List Nat) : Bool :=
  l = strBytes "DATA binary_compressed" ∨ l = strBytes "DATA binary" ∨
    l = strBytes "DATA ascii"

/-- Header lexer loop (lines 25-33): walks the byte stream; `cur` holds the
reversed bytes of the line being read.  Returns the decoded, stripped header
lines and the number of bytes consumed.  A final line without a newline is
returned by `f.readline` and appended just like any other line. -/
def lexAux : List Nat → List Nat → List (List Nat) × Nat
  | [], cur =>
    if cur = [] then ([], 0)
    else ([pyStrip (decodeIgnore cur.reverse)], cur.length)
  | b :: rest, cur =>
    if b = 10 then
      let s := pyStrip (decodeIgnore (cur.reverse ++ [10]))
      if isSentinel s then ([s], cur.length + 1)
      else
        let r := lexAux rest []
        (s :: r.1, cur.length + 1 + r.2)
    else lexAux rest (b :: cur)

/-- The header lexer: header lines plus the data-start offset (`f.tell()`). -/
def readHeader (bs : List Nat) : List (List Nat) × Nat :=
  lexAux bs []

/-- One step of the directive dispatch (lines 42-58): an `elif` chain of
`line.startswith(...)` tests; unmatched lines are ignored; `int(...)` raises
`ValueError` on bad tokens; `line.split()[1]` raises `IndexError` when the
line has no second token. -/
def processLine (info : HeaderInfo) (line : List Nat) : Except PyErr HeaderInfo :=
  if (strBytes "FIELDS").isPrefixOf line then
    .ok { info with fields := some (pySplit line).tail }
  else if (strBytes "SIZE").isPrefixOf line then
    match ((pySplit line).tail).mapM pyInt with
    | .error e => .error e
    | .ok vs => .ok { info with sizes := some vs }
  else if (strBytes "TYPE").isPrefixOf line then
    .ok { info with types := some (pySplit line).tail }
  else if (strBytes "COUNT").isPrefixOf line then
    match ((pySplit line).tail).mapM pyInt with
    | .error e => .error e
    | .ok vs => .ok { info with counts := some vs }
  else if (strBytes "WIDTH").isPrefixOf line then
    match (pySplit line).get? 1 with
    | none => .error .indexError
    | some t =>
      match pyInt t with
      | .error e => .error e
      | .ok v => .ok { info with width := some v }
  else if (strBytes "HEIGHT").isPrefixOf line then
    match (pySplit line).get? 1 with
    | none => .error .indexError
    | some t =>
      match pyInt t with
      | .error e => .error e
      | .ok v => .ok { info with height := some v }
  else if (strBytes "POINTS").isPrefixOf line then
    match (pySplit line).get? 1 with
    | none => .error .indexError
    | some t =>
      match pyInt t with
      | .error e => .error e
      | .ok v => .ok { info with points := some v }
  else if (strBytes "DATA").isPrefixOf line then
    match (pySplit line).get? 1 with
    | none => .error .indexError
    | some t => .ok { info with data_type := some t }
  else .ok info

/-- The `for line in header_lines` loop (lines 42-58), threading the dict. -/
def parseLines (info : HeaderInfo) : List (List Nat) → Except PyErr HeaderInfo
  | [] => .ok info
  | l :: ls =>
    match processLine info l with
    | .error e => .error e
    | .ok i => parseLines i ls

/-- Schema building: run the directive dispatch over the header lines. -/
def parseHeaderInfo (lines : List (List Nat)) : Except PyErr HeaderInfo :=
  parseLines emptyInfo lines

/-- The field-offset loop (lines 71-75): `enumerate(header_info['fields'])`
drives the loop, indexing `sizes[i]` and `counts[i]`, which raises
`IndexError` past the end of either list.  Returns the printed offsets. -/
def offsetsLoop (ss cs : List Int) : List (List Nat) → Nat → Int → Except PyErr (List Int)
  | [], _, _ => .ok []
  | _f :: fl, i, cur =>
    match ss.get? i with
    | none => .error .indexError
    | some s =>
      match cs.get? i with
      | none => .error .indexError
      | some c =>
        match offsetsLoop ss cs fl (i + 1) (cur + s * c) with
        | .error e => .error e
        | .ok r => .ok (cur :: r)

/-- Row-geometry block (lines 64-75): runs only when both `sizes` and
`counts` are in the dict; `row_size` is the zip-sum; the offset loop then
reads `header_info['fields']` (a `KeyError` when absent). -/
def computeGeometry (info : HeaderInfo) : Except PyErr (Option (Int × List Int)) :=
  match info.sizes, info.counts with
  | some ss, some cs =>
    let row_size := ((ss.zip cs).map (fun p => p.1 * p.2)).sum
    match info.fields with
    | none => .error .keyError
    | some fl =>
      match offsetsLoop ss cs fl 0 0 with
      | .error e => .error e
      | .ok offs => .ok (some (row_size, offs))
  | _, _ => .ok none

/-- Python slice-index adjustment for `l[a:b]`. -/
def pyAdjust (n : Int) (x : Int) : Int :=
  if x < 0 then max 0 (n + x) else min x n

/-- Python byte-string slice `l[a:b]`. -/
def pySlice (l : List Nat) (a b : Int) : List Nat :=
  (l.take (pyAdjust l.length b).toNat).drop (pyAdjust l.length a).toNat

/-- Little-endian word value of a byte string (first byte least
significant); for a 4-byte string this is the IEEE-754 bit pattern that
`struct.unpack('<f', ·)` reinterprets, for a 1-byte string it is the
`struct.unpack('<B', ·)` value. -/
def leWord : List Nat → Nat
  | [] => 0
  | b :: r => b + 256 * leWord r

/-- Per-record field loop (lines 110-122): for each declared field slice
`sizes[j]*counts[j]` bytes at the running offset; a 4-byte span is decoded
with `'<f'`, a 1-byte span with `'<B'`, anything else is skipped.  Missing
dict keys and out-of-range indices raise; `struct.unpack` raises when the
slice length does not match the format size.  The fields printed before an
exception are retained (print-as-you-go), hence the pair result. -/
def decodeFields (row : List Nat) (ss? cs? : Option (List Int)) :
    List (List Nat) → Nat → Int → List (List Nat × Val) × Option PyErr
  | [], _, _ => ([], none)
  | f :: fl, j, cur =>
    match ss? with
    | none => ([], some .keyError)
    | some ss =>
      match ss.get? j with
      | none => ([], some .indexError)
      | some s =>
        match cs? with
        | none => ([], some .keyError)
        | some cs =>
          match cs.get? j with
          | none => ([], some .indexError)
          | some c =>
            let fsz := s * c
            let fd := pySlice row cur (cur + fsz)
            if fsz = 4 then
              if fd.length = 4 then
                match decodeFields row ss? cs? fl (j + 1) (cur + fsz) with
                | (rest, e) => ((f, Val.f32 (leWord fd)) :: rest, e)
              else ([], some .structError)
            else if fsz = 1 then
              if fd.length = 1 then
                match decodeFields row ss? cs? fl (j + 1) (cur + fsz) with
                | (rest, e) => ((f, Val.u8 (leWord fd)) :: rest, e)
              else ([], some .structError)
            else decodeFields row ss? cs? fl (j + 1) (cur + fsz)

/-- One decoded record: the `(field, value)` pairs printed for one point. -/
abbrev PcdRecord := List (List Nat × Val)

/-- The bounded row-read loop (lines 99-122): the countdown argument is the
remaining iterations of `range(min(3, points))`, `i` the Python loop index,
`rest` the unread bytes at the file cursor.  The loop stops silently when
the next stride would pass end-of-file or a read comes up short; a negative
`row_size` makes `f.read` read to end-of-file.  `header_info['fields']` is
read only once a row was read, so its `KeyError` fires inside the loop. -/
def decodeLoop (rs : Int) (fields? : Option (List (List Nat)))
    (ss? cs? : Option (List Int)) (ds fs : Nat) :
    Nat → Nat → List Nat → List PcdRecord × Option PyErr
  | 0, _, _ => ([], none)
  | n + 1, i, rest =>
    if (ds : Int) + ((i : Int) + 1) * rs > (fs : Int) then ([], none)
    else
      let row := if rs < 0 then rest else rest.take rs.toNat
      if (row.length : Int) < rs then ([], none)
      else
        match fields? with
        | none => ([], some .keyError)
        | some fl =>
          match decodeFields row ss? cs? fl 0 0 with
          | (vals, some e) => ([vals], some e)
          | (vals, none) =>
            match decodeLoop rs fields? ss? cs? ds fs n (i + 1) (rest.drop row.length) with
            | (recs, e) => (vals :: recs, e)

/-- The record-decoding stage (lines 93-125): gated on the payload encoding
being `binary` or `binary_compressed`; `k = min(3, points or 0)` rows are
attempted inside a `try/except`; when geometry was skipped the first loop
iteration hits the undefined `row_size` (`NameError`), which the `except`
swallows. -/
def decodeStage (info : HeaderInfo) (geom : Option (Int × List Int))
    (payload : List Nat) (ds fs : Nat) : List PcdRecord × Option PyErr :=
  if info.data_type = some (strBytes "binary") ∨
      info.data_type = some (strBytes "binary_compressed") then
    let k := (min 3 (info.points.getD 0)).toNat
    if k = 0 then ([], none)
    else
      match geom with
      | none => ([], some .nameError)
      | some (rs, _offs) => decodeLoop rs info.fields info.sizes info.counts ds fs k 0 payload
  else ([], none)

/-- The format note (lines 84-90). -/
def encodingNote (info : HeaderInfo) : EncodingNote :=
  if info.data_type = some (strBytes "binary_compressed") then .compressedNeedsDecompression
  else if info.data_type = some (strBytes "binary") then .binaryPlain
  else .asciiPlain

/-- The structured diagnostic report assembled by `analyze_pcd_file`. -/
structure Report where
  fileSize : Nat
  headerLines : List (List Nat)
  info : HeaderInfo
  geom : Option (Int × List Int)
  dataStart : Nat
  dataSize : Nat
  note : EncodingNote
  records : List PcdRecord
  decodeError : Option PyErr
deriving DecidableEq

/-- The whole analysis (lines 20-125) on the file's bytes.  Exceptions that
escape the function surface as `Except.error`; the decode stage's trapped
exception surfaces as `Report.decodeError`. -/
def analyze (bs : List Nat) : Except PyErr Report :=
  let file_size := bs.length
  let hl := readHeader bs
  match parseHeaderInfo hl.1 with
  | .error e => .error e
  | .ok info =>
    match computeGeometry info with
    | .error e => .error e
    | .ok geom =>
      let data_start := hl.2
      let data_size := file_size - data_start
      let payload := bs.drop data_start
      let dec := decodeStage info geom payload data_start file_size
      .ok ⟨file_size, hl.1, info, geom, data_start, data_size,
        encodingNote info, dec.1, dec.2⟩

/-! ## Helper lemmas -/

/-- An in-range index gives `get? = some (getD ...)`. -/
theorem get?_eq_some_getD {α : Type} (d : α) :
    ∀ (l : List α) (j : Nat), j < l.length → l.get? j = some (l.getD j d)
  | _ :: _, 0, _ => rfl
  | _ :: l, j + 1, h => get?_eq_some_getD d l j (by simpa using h)

/-- `getElem?` version of `get?_eq_some_getD`. -/
theorem getElem?_eq_some_getD {α : Type} (d : α) (l : List α) :
    ∀ (j : Nat), j < l.length → l[j]? = some (l.getD j d) := by
  induction l with
  | nil => intro j h; simp at h
  | cons a l ih =>
    intro j h
    cases j with
    | zero => simp
    | succ j => simpa using ih j (by simpa using h)

/-- `parseLines` over an appended final line factors through the loop. -/
theorem parseLines_append (i0 : HeaderInfo) (ls : List (List Nat)) (l : List Nat) :
    parseLines i0 (ls ++ [l])
      = (parseLines i0 ls).bind (fun i => processLine i l) := by
  induction ls generalizing i0 with
  | nil =>
    show parseLines i0 [l] = processLine i0 l
    unfold parseLines
    rcases processLine i0 l with e | i <;> rfl
  | cons a ls ih =>
    show parseLines i0 (a :: (ls ++ [l])) = _
    unfold parseLines
    rcases processLine i0 a with e | i
    · rfl
    · exact ih i

/-- `parseHeaderInfo` over an appended final line factors through the fold. -/
theorem parseHeaderInfo_append (ls : List (List Nat)) (l : List Nat) :
    parseHeaderInfo (ls ++ [l])
      = (parseHeaderInfo ls).bind (fun i => processLine i l) :=
  parseLines_append emptyInfo ls l

/-! ## C1: decoding gate for `binary_compressed` -/

/-- Concrete `binary_compressed` file whose payload is one full stride. -/
def c1bytes : List Nat :=
  strBytes "FIELDS x\nSIZE 4\nCOUNT 1\nPOINTS 1\nDATA binary_compressed\n" ++ [0, 0, 128, 63]

/-- C1 counterexample: on a `binary_compressed` file with one stride of
payload the analyzer returns 1 decoded record (the raw-stride decode IS
attempted), not the 0 records the claim requires; the decompression note is
shown nonetheless. -/
theorem spec_C1_counterexample :
    (analyze c1bytes).toOption.map (fun r => (r.records.length, r.note))
      = some (1, EncodingNote.compressedNeedsDecompression) := by
  decide

/-- C1 (amended): for a `binary_compressed` payload the decoder reports
that decompression is required, but it does NOT stop: record decoding
proceeds through exactly the same stride-read/field-slice steps as for
`binary` encoding. -/
theorem spec_C1 :
    ∀ (info : HeaderInfo) (geom : Option (Int × List Int)) (payload : List Nat) (ds fs : Nat),
      decodeStage { info with data_type := some (strBytes "binary_compressed") } geom payload ds fs
        = decodeStage { info with data_type := some (strBytes "binary") } geom payload ds fs
      ∧ encodingNote { info with data_type := some (strBytes "binary_compressed") }
          = EncodingNote.compressedNeedsDecompression := by
  intro info geom payload ds fs
  constructor
  · unfold decodeStage
    rw [if_pos (Or.inr rfl), if_pos (Or.inl rfl)]
  · unfold encodingNote
    rw [if_pos rfl]

/-! ## C2: graceful degradation on incomplete schema -/

/-- The offset loop raises once `enumerate(fields)` outruns `sizes`. -/
theorem offsetsLoop_err (ss cs : List Int) :
    ∀ (fl : List (List Nat)) (j : Nat) (cur : Int),
      ss.length < j + fl.length → j ≤ ss.length →
      ∃ e, offsetsLoop ss cs fl j cur = .error e := by
  intro fl
  induction fl with
  | nil =>
    intro j cur h1 h2
    simp only [List.length_nil, Nat.add_zero] at h1
    omega
  | cons f fl ih =>
    intro j cur h1 h2
    simp only [List.length_cons] at h1
    by_cases hj : j < ss.length
    · have hsj := get?_eq_some_getD 0 ss j hj
      rcases hc : cs.get? j with _ | c
      · exact ⟨.indexError, by simp only [offsetsLoop, hsj, hc]⟩
      · rcases ih (j + 1) (cur + ss.getD j 0 * c) (by omega) (by omega) with ⟨e, he⟩
        exact ⟨e, by simp only [offsetsLoop, hsj, hc, he]⟩
    · have hsj : ss.get? j = none := List.get?_eq_none.mpr (by omega)
      exact ⟨.indexError, by simp only [offsetsLoop, hsj]⟩

/-- C2 counterexample: a header with `SIZE` and `COUNT` but no `FIELDS` —
an incomplete schema the claim says is handled without an exception — makes
the offset loop raise a `KeyError` that propagates out of the analysis. -/
theorem spec_C2_counterexample :
    analyze (strBytes "SIZE 4\nCOUNT 1\nDATA binary\n") = .error .keyError := by
  rfl

/-- C2 (amended): only an absent `SIZE` or `COUNT` degrades gracefully —
geometry is skipped and decoding yields no records (trapping a `NameError`
internally when a positive point count was declared).  When `SIZE` and
`COUNT` are both present, an absent `FIELDS` raises a `KeyError` and a
`FIELDS` list longer than `SIZE` raises an `IndexError`, and these
propagate out of the analysis. -/
theorem spec_C2 :
    (∀ info : HeaderInfo, info.sizes = none ∨ info.counts = none →
      computeGeometry info = .ok none)
    ∧ (∀ (info : HeaderInfo) (payload : List Nat) (ds fs : Nat),
        (info.data_type = some (strBytes "binary") ∨
          info.data_type = some (strBytes "binary_compressed")) →
        (min 3 (info.points.getD 0)).toNat = 0 →
        decodeStage info none payload ds fs = ([], none))
    ∧ (∀ (info : HeaderInfo) (payload : List Nat) (ds fs : Nat),
        (info.data_type = some (strBytes "binary") ∨
          info.data_type = some (strBytes "binary_compressed")) →
        0 < (min 3 (info.points.getD 0)).toNat →
        decodeStage info none payload ds fs = ([], some .nameError))
    ∧ (∀ (info : HeaderInfo) (ss cs : List Int),
        info.sizes = some ss → info.counts = some cs → info.fields = none →
        computeGeometry info = .error .keyError)
    ∧ (∀ (info : HeaderInfo) (ss cs : List Int) (fl : List (List Nat)),
        info.sizes = some ss → info.counts = some cs → info.fields = some fl →
        ss.length < fl.length →
        ∃ e, computeGeometry info = .error e) := by
  refine ⟨?_, ?_, ?_, ?_, ?_⟩
  · intro info h
    unfold computeGeometry
    rcases hs : info.sizes with _ | ss <;> rcases hc : info.counts with _ | cs <;> try rfl
    rw [hs, hc] at h
    simp at h
  · intro info payload ds fs hgate hk
    unfold decodeStage
    rw [if_pos hgate, if_pos hk]
  · intro info payload ds fs hgate hk
    unfold decodeStage
    rw [if_pos hgate, if_neg (by omega)]
  · intro info ss cs hs hc hf
    simp only [computeGeometry, hs, hc, hf]
  · intro info ss cs fl hs hc hf hlen
    rcases offsetsLoop_err ss cs fl 0 0 (by omega) (by omega) with ⟨e, he⟩
    exact ⟨e, by simp only [computeGeometry, hs, hc, hf, he]⟩

/-- C2 witness: the amended behaviors at concrete inputs — `SIZE` absent is
skipped; `COUNT` absent with declared points traps a `NameError`; `FIELDS`
absent with `SIZE`/`COUNT` present raises a `KeyError`. -/
theorem spec_C2_witness :
    computeGeometry ⟨none, none, none, some [1], none, none, none, none⟩ = .ok none
    ∧ decodeStage ⟨none, some [4], none, none, none, none, some 5, some (strBytes "binary")⟩
        none [1, 2, 3, 4] 0 4 = ([], some .nameError)
    ∧ computeGeometry ⟨none, some [4], none, some [1], none, none, none, none⟩
        = .error .keyError := by
  refine ⟨?_, ?_, ?_⟩
  · exact spec_C2.1 _ (Or.inl rfl)
  · exact spec_C2.2.2.1 _ _ _ _ (Or.inl rfl) (by decide)
  · exact spec_C2.2.2.2.1 _ [4] [1] rfl rfl rfl

/-! ## C3: directive recognition -/

/-- C3 counterexample: a line whose first token is `SIZES` — which the
claim says matches no directive and is ignored — is recognized by the
`startswith`-based dispatch as a `SIZE` directive and sets `sizes`. -/
theorem spec_C3_counterexample :
    parseHeaderInfo [strBytes "SIZES 7"]
      = .ok { emptyInfo with sizes := some [7] } := by
  rfl

/-- C3 (amended): directive recognition is a case-sensitive PREFIX match of
the whole line against the keywords, tested in the order `FIELDS`, `SIZE`,
`TYPE`, `COUNT`, `WIDTH`, `HEIGHT`, `POINTS`, `DATA` (so a line starting
with `SIZES` or `WIDTHX` is treated as a `SIZE`/`WIDTH` directive); a line
matching no keyword prefix is ignored; and when the same directive occurs
twice the later occurrence's values replace the earlier one's. -/
theorem spec_C3 :
    (∀ (i : HeaderInfo) (l : List Nat) (vs : List Int),
      (strBytes "FIELDS").isPrefixOf l = false →
      (strBytes "SIZE").isPrefixOf l = true →
      ((pySplit l).tail).mapM pyInt = .ok vs →
      processLine i l = .ok { i with sizes := some vs })
    ∧ (∀ (i : HeaderInfo) (l : List Nat) (v : Int) (t : List Nat),
      (strBytes "FIELDS").isPrefixOf l = false →
      (strBytes "SIZE").isPrefixOf l = false →
      (strBytes "TYPE").isPrefixOf l = false →
      (strBytes "COUNT").isPrefixOf l = false →
      (strBytes "WIDTH").isPrefixOf l = true →
      (pySplit l).get? 1 = some t → pyInt t = .ok v →
      processLine i l = .ok { i with width := some v })
    ∧ (∀ (i : HeaderInfo) (l : List Nat),
      (strBytes "FIELDS").isPrefixOf l = false →
      (strBytes "SIZE").isPrefixOf l = false →
      (strBytes "TYPE").isPrefixOf l = false →
      (strBytes "COUNT").isPrefixOf l = false →
      (strBytes "WIDTH").isPrefixOf l = false →
      (strBytes "HEIGHT").isPrefixOf l = false →
      (strBytes "POINTS").isPrefixOf l = false →
      (strBytes "DATA").isPrefixOf l = false →
      processLine i l = .ok i)
    ∧ (∀ (ls : List (List Nat)) (i : HeaderInfo) (l : List Nat) (vs : List Int),
      parseHeaderInfo ls = .ok i →
      (strBytes "FIELDS").isPrefixOf l = false →
      (strBytes "SIZE").isPrefixOf l = true →
      ((pySplit l).tail).mapM pyInt = .ok vs →
      parseHeaderInfo (ls ++ [l]) = .ok { i with sizes := some vs }) := by
  have hsize : ∀ (i : HeaderInfo) (l : List Nat) (vs : List Int),
      (strBytes "FIELDS").isPrefixOf l = false →
      (strBytes "SIZE").isPrefixOf l = true →
      ((pySplit l).tail).mapM pyInt = .ok vs →
      processLine i l = .ok { i with sizes := some vs } := by
    intro i l vs h1 h2 h3
    simp only [processLine, h1, h2, h3, Bool.false_eq_true, reduceIte]
  refine ⟨hsize, ?_, ?_, ?_⟩
  · intro i l v t h1 h2 h3 h4 h5 h6 h7
    simp only [processLine, h1, h2, h3, h4, h5, h6, h7, Bool.false_eq_true, reduceIte]
  · intro i l h1 h2 h3 h4 h5 h6 h7 h8
    simp only [processLine, h1, h2, h3, h4, h5, h6, h7, h8, Bool.false_eq_true, reduceIte]
  · intro ls i l vs hp h1 h2 h3
    rw [parseHeaderInfo_append, hp]
    exact hsize i l vs h1 h2 h3

/-- C3 witness: a second `SIZE` line replaces the first one's values, and a
`SIZES`-led line is recognized as `SIZE`. -/
theorem spec_C3_witness :
    parseHeaderInfo ([strBytes "SIZE 1"] ++ [strBytes "SIZES 2 3"])
      = .ok { emptyInfo with sizes := some [2, 3] } := by
  exact spec_C3.2.2.2 [strBytes "SIZE 1"]
    { emptyInfo with sizes := some [1] } (strBytes "SIZES 2 3") [2, 3]
    (by rfl) (by decide) (by decide) (by rfl)

/-! ## C4: stride and field offsets -/

/-- Closed form of the offsets produced by `offsetsLoop`. -/
def offsAux (ss cs : List Int) : Nat → Int → Nat → List Int
  | _, _, 0 => []
  | j, cur, n + 1 => cur :: offsAux ss cs (j + 1) (cur + ss.getD j 0 * cs.getD j 0) n

/-- Under aligned lists the offset loop succeeds with the closed form. -/
theorem offsetsLoop_ok (ss cs : List Int) :
    ∀ (fl : List (List Nat)) (j : Nat) (cur : Int),
      j + fl.length ≤ ss.length → j + fl.length ≤ cs.length →
      offsetsLoop ss cs fl j cur = .ok (offsAux ss cs j cur fl.length) := by
  intro fl
  induction fl with
  | nil => intro j cur h1 h2; rfl
  | cons f fl ih =>
    intro j cur h1 h2
    simp only [List.length_cons] at h1 h2
    have hsj := get?_eq_some_getD 0 ss j (by omega)
    have hcj := get?_eq_some_getD 0 cs j (by omega)
    have hrec := ih (j + 1) (cur + ss.getD j 0 * cs.getD j 0) (by omega) (by omega)
    simp only [offsetsLoop, hsj, hcj, hrec, List.length_cons, offsAux]

/-- The closed-form offsets list has one entry per field. -/
theorem offsAux_length (ss cs : List Int) :
    ∀ (n : Nat) (j : Nat) (cur : Int), (offsAux ss cs j cur n).length = n := by
  intro n
  induction n with
  | zero => intro j cur; rfl
  | succ n ih => intro j cur; simp [offsAux, ih]

/-- The first offset is the starting accumulator. -/
theorem offsAux_getD_zero (ss cs : List Int) (n : Nat) (j : Nat) (cur : Int)
    (h : 0 < n) : (offsAux ss cs j cur n).getD 0 0 = cur := by
  cases n with
  | zero => omega
  | succ n => rfl

/-- Each offset is the previous one plus the previous field's byte span. -/
theorem offsAux_getD_succ (ss cs : List Int) :
    ∀ (n : Nat) (j : Nat) (cur : Int) (i : Nat), i + 1 < n →
      (offsAux ss cs j cur n).getD (i + 1) 0
        = (offsAux ss cs j cur n).getD i 0 + ss.getD (j + i) 0 * cs.getD (j + i) 0 := by
  intro n
  induction n with
  | zero => intro j cur i h; omega
  | succ n ihn =>
    intro j cur i h
    cases i with
    | zero =>
      simp only [offsAux, List.getD_cons_succ, List.getD_cons_zero]
      rw [offsAux_getD_zero ss cs n (j + 1) _ (by omega)]
      simp
    | succ i =>
      simp only [offsAux, List.getD_cons_succ]
      rw [ihn (j + 1) _ i (by omega)]
      have e : j + 1 + i = j + (i + 1) := by omega
      rw [e]

/-- The zip-sum stride equals the per-index range sum. -/
theorem zipsum_eq_rangesum (ss : List Int) :
    ∀ (cs : List Int), ss.length = cs.length →
      ((ss.zip cs).map (fun p => p.1 * p.2)).sum
        = ((List.range ss.length).map (fun i => ss.getD i 0 * cs.getD i 0)).sum := by
  induction ss with
  | nil => intro cs h; simp
  | cons s ss ih =>
    intro cs h
    cases cs with
    | nil => simp at h
    | cons c cs =>
      simp only [List.length_cons] at h
      have hr := ih cs (by omega)
      simp only [List.zip_cons_cons, List.map_cons, List.sum_cons, List.length_cons,
        List.range_succ_eq_map, List.map_map, List.getD_cons_zero]
      rw [hr]
      congr 1

/-- C4: with `SIZE` and `COUNT` aligned to the field list, the stride is the
sum of `elementSizeBytes_i * elementCount_i` over all fields and the offsets
start at 0 and grow by the preceding field's byte span (contiguous packing,
no padding). -/
theorem spec_C4 (info : HeaderInfo) (fl : List (List Nat)) (ss cs : List Int)
    (hf : info.fields = some fl) (hs : info.sizes = some ss) (hc : info.counts = some cs)
    (hls : ss.length = fl.length) (hlc : cs.length = fl.length) :
    ∃ offs, computeGeometry info
        = .ok (some (((List.range fl.length).map (fun i => ss.getD i 0 * cs.getD i 0)).sum, offs))
      ∧ offs.length = fl.length
      ∧ (0 < fl.length → offs.getD 0 0 = 0)
      ∧ (∀ i, 0 < i → i < fl.length →
          offs.getD i 0 = offs.getD (i - 1) 0 + ss.getD (i - 1) 0 * cs.getD (i - 1) 0) := by
  refine ⟨offsAux ss cs 0 0 fl.length, ?_, ?_, ?_, ?_⟩
  · have hloop := offsetsLoop_ok ss cs fl 0 0 (by omega) (by omega)
    have hz := zipsum_eq_rangesum ss cs (by omega)
    simp only [computeGeometry, hs, hc, hf, hloop, hz, hls]
  · exact offsAux_length ss cs fl.length 0 0
  · intro h
    exact offsAux_getD_zero ss cs fl.length 0 0 h
  · intro i h0 hi
    obtain ⟨i', rfl⟩ : ∃ i', i = i' + 1 := ⟨i - 1, by omega⟩
    have h := offsAux_getD_succ ss cs fl.length 0 0 i' (by omega)
    simpa using h

/-- Concrete schema for the C4 witness (Scenario A's header). -/
def infoC4 : HeaderInfo :=
  ⟨some [strBytes "x", strBytes "y", strBytes "z"], some [4, 4, 4], none,
    some [1, 1, 1], none, none, some 2, some (strBytes "binary")⟩

/-- C4 witness: Scenario A's schema gives stride 12 and offsets 0/4/8. -/
theorem spec_C4_witness :
    ∃ offs, computeGeometry infoC4
        = .ok (some (((List.range ([strBytes "x", strBytes "y", strBytes "z"] : List (List Nat)).length).map
            (fun i => ([4, 4, 4] : List Int).getD i 0 * ([1, 1, 1] : List Int).getD i 0)).sum, offs))
      ∧ offs.length = ([strBytes "x", strBytes "y", strBytes "z"] : List (List Nat)).length
      ∧ (0 < ([strBytes "x", strBytes "y", strBytes "z"] : List (List Nat)).length → offs.getD 0 0 = 0)
      ∧ (∀ i, 0 < i → i < ([strBytes "x", strBytes "y", strBytes "z"] : List (List Nat)).length →
          offs.getD i 0 = offs.getD (i - 1) 0
            + ([4, 4, 4] : List Int).getD (i - 1) 0 * ([1, 1, 1] : List Int).getD (i - 1) 0) :=
  spec_C4 infoC4 [strBytes "x", strBytes "y", strBytes "z"] [4, 4, 4] [1, 1, 1]
    rfl rfl rfl rfl rfl

/-! ## C5: header lexer -/

/-- The lexer consumes at least the bytes already buffered in `cur`. -/
theorem lexAux_ge (bs : List Nat) :
    ∀ cur : List Nat, cur.length ≤ (lexAux bs cur).2 := by
  induction bs with
  | nil =>
    intro cur
    by_cases h : cur = []
    · subst h; simp [lexAux]
    · simp [lexAux, h]
  | cons b rest ih =>
    intro cur
    by_cases hb : b = 10
    · subst hb
      cases hsent : isSentinel (pyStrip (decodeIgnore (cur.reverse ++ [10]))) with
      | false =>
        simp only [lexAux, reduceIte, hsent, Bool.false_eq_true, if_false]
        omega
      | true =>
        simp only [lexAux, reduceIte, hsent, if_true]
        omega
    · simp only [lexAux]
      rw [if_neg hb]
      have h := ih (b :: cur)
      simp only [List.length_cons] at h
      omega

/-- The lexer never claims more bytes than the stream plus its buffer. -/
theorem lexAux_le (bs : List Nat) :
    ∀ cur : List Nat, (lexAux bs cur).2 ≤ bs.length + cur.length := by
  induction bs with
  | nil =>
    intro cur
    by_cases h : cur = []
    · subst h; simp [lexAux]
    · simp [lexAux, h]
  | cons b rest ih =>
    intro cur
    by_cases hb : b = 10
    · subst hb
      cases hsent : isSentinel (pyStrip (decodeIgnore (cur.reverse ++ [10]))) with
      | false =>
        simp only [lexAux, reduceIte, hsent, Bool.false_eq_true, if_false]
        have h := ih []
        simp only [List.length_nil, List.length_cons] at h ⊢
        omega
      | true =>
        simp only [lexAux, reduceIte, hsent, if_true, List.length_cons]
        omega
    · simp only [lexAux]
      rw [if_neg hb]
      have h := ih (b :: cur)
      simp only [List.length_cons] at h ⊢
      omega

/-- No line before the last returned one is a sentinel. -/
theorem lexAux_dropLast (bs : List Nat) :
    ∀ (cur : List Nat) (l : List Nat),
      l ∈ (lexAux bs cur).1.dropLast → isSentinel l = false := by
  induction bs with
  | nil =>
    intro cur l hl
    by_cases h : cur = [] <;> simp [lexAux, h] at hl
  | cons b rest ih =>
    intro cur l hl
    by_cases hb : b = 10
    · subst hb
      cases hsent : isSentinel (pyStrip (decodeIgnore (cur.reverse ++ [10]))) with
      | false =>
        simp only [lexAux, reduceIte, hsent, Bool.false_eq_true, if_false] at hl
        rcases hr1 : (lexAux rest []).1 with _ | ⟨x, xs⟩
        · rw [hr1] at hl
          simp at hl
        · rw [hr1, List.dropLast_cons₂] at hl
          rcases List.mem_cons.mp hl with h | h
          · subst h; exact hsent
          · exact ih [] l (by rw [hr1]; exact h)
      | true =>
        simp only [lexAux, reduceIte, hsent, if_true] at hl
        simp at hl
    · simp only [lexAux] at hl
      rw [if_neg hb] at hl
      exact ih (b :: cur) l hl

/-- If a sentinel was returned, it is the LAST returned line. -/
theorem lexAux_last (bs : List Nat) :
    ∀ cur : List Nat, (∃ l ∈ (lexAux bs cur).1, isSentinel l = true) →
      ∃ s, (lexAux bs cur).1.getLast? = some s ∧ isSentinel s = true := by
  induction bs with
  | nil =>
    intro cur h
    by_cases hc : cur = []
    · subst hc; simp [lexAux] at h
    · rcases h with ⟨l, hl, hs⟩
      simp only [lexAux, if_neg hc] at hl ⊢
      simp at hl
      subst hl
      exact ⟨_, rfl, hs⟩
  | cons b rest ih =>
    intro cur h
    by_cases hb : b = 10
    · subst hb
      cases hsent : isSentinel (pyStrip (decodeIgnore (cur.reverse ++ [10]))) with
      | false =>
        rcases h with ⟨l, hl, hs⟩
        simp only [lexAux, reduceIte, hsent, Bool.false_eq_true, if_false] at hl ⊢
        rcases List.mem_cons.mp hl with h' | h'
        · subst h'; rw [hs] at hsent; cases hsent
        · rcases ih [] ⟨l, h', hs⟩ with ⟨s, hlast, hsent'⟩
          rcases hr1 : (lexAux rest []).1 with _ | ⟨x, xs⟩
          · rw [hr1] at h'; cases h'
          · rw [hr1] at hlast
            refine ⟨s, ?_, hsent'⟩
            rw [List.getLast?_cons_cons]
            exact hlast
      | true =>
        simp only [lexAux, reduceIte, hsent, if_true]
        exact ⟨_, rfl, hsent⟩
    · rcases h with ⟨l, hl, hs⟩
      simp only [lexAux] at hl ⊢
      rw [if_neg hb] at hl ⊢
      exact ih (b :: cur) ⟨l, hl, hs⟩

/-- Without any sentinel the lexer consumes the entire stream. -/
theorem lexAux_nosent (bs : List Nat) :
    ∀ cur : List Nat, (∀ l ∈ (lexAux bs cur).1, isSentinel l = false) →
      (lexAux bs cur).2 = bs.length + cur.length := by
  induction bs with
  | nil =>
    intro cur h
    by_cases hc : cur = []
    · subst hc; simp [lexAux]
    · simp [lexAux, hc]
  | cons b rest ih =>
    intro cur h
    by_cases hb : b = 10
    · subst hb
      cases hsent : isSentinel (pyStrip (decodeIgnore (cur.reverse ++ [10]))) with
      | false =>
        simp only [lexAux, reduceIte, hsent, Bool.false_eq_true, if_false] at h ⊢
        have hrest := ih [] (fun l hl => h l (List.mem_cons_of_mem _ hl))
        simp only [List.length_nil, List.length_cons] at hrest ⊢
        omega
      | true =>
        simp only [lexAux, reduceIte, hsent, if_true] at h
        have := h _ (List.mem_singleton.mpr rfl)
        rw [this] at hsent
        cases hsent
    · simp only [lexAux] at h ⊢
      rw [if_neg hb] at h ⊢
      have hrest := ih (b :: cur) h
      simp only [List.length_cons] at hrest ⊢
      omega

/-- Lexing only the consumed prefix reproduces the result: no byte after
the consumed region influenced the returned header. -/
theorem lexAux_take (bs : List Nat) :
    ∀ cur : List Nat,
      lexAux (bs.take ((lexAux bs cur).2 - cur.length)) cur = lexAux bs cur := by
  induction bs with
  | nil => intro cur; simp
  | cons b rest ih =>
    intro cur
    by_cases hb : b = 10
    · subst hb
      cases hsent : isSentinel (pyStrip (decodeIgnore (cur.reverse ++ [10]))) with
      | false =>
        have hR : lexAux (10 :: rest) cur
            = (pyStrip (decodeIgnore (cur.reverse ++ [10])) :: (lexAux rest []).1,
                cur.length + 1 + (lexAux rest []).2) := by
          simp only [lexAux, reduceIte, hsent, Bool.false_eq_true, if_false]
        have hrest := ih []
        simp only [List.length_nil, Nat.sub_zero] at hrest
        rw [hR]
        dsimp only
        have e1 : cur.length + 1 + (lexAux rest []).2 - cur.length
            = (lexAux rest []).2 + 1 := by omega
        rw [e1, List.take_succ_cons]
        simp only [lexAux, reduceIte, hsent, Bool.false_eq_true, if_false, hrest]
      | true =>
        have hR : lexAux (10 :: rest) cur
            = ([pyStrip (decodeIgnore (cur.reverse ++ [10]))], cur.length + 1) := by
          simp only [lexAux, reduceIte, hsent, if_true]
        rw [hR]
        dsimp only
        have e1 : cur.length + 1 - cur.length = 1 := by omega
        rw [e1, List.take_succ_cons, List.take_zero]
        simp only [lexAux, reduceIte, hsent, if_true]
    · have hR : lexAux (b :: rest) cur = lexAux rest (b :: cur) := by
        rw [lexAux, if_neg hb]
      rw [hR]
      have hge := lexAux_ge rest (b :: cur)
      simp only [List.length_cons] at hge
      obtain ⟨m, hm⟩ : ∃ m, (lexAux rest (b :: cur)).2 - cur.length = m + 1 :=
        ⟨(lexAux rest (b :: cur)).2 - cur.length - 1, by omega⟩
      rw [hm, List.take_succ_cons]
      have hL : lexAux (b :: rest.take m) cur = lexAux (rest.take m) (b :: cur) := by
        rw [lexAux, if_neg hb]
      rw [hL]
      have hm2 : m = (lexAux rest (b :: cur)).2 - (b :: cur).length := by
        simp only [List.length_cons]
        omega
      rw [hm2]
      exact ih (b :: cur)

/-- C5: the Header Lexer accumulates lines up to the first sentinel line,
includes that sentinel as the last returned line, consumes no byte beyond
it (re-lexing only the consumed prefix reproduces the result), and when the
stream ends without a sentinel it consumes the whole stream and returns the
lines collected so far. -/
theorem spec_C5 (bs : List Nat) :
    (∀ l ∈ (readHeader bs).1.dropLast, isSentinel l = false)
    ∧ (readHeader bs).2 ≤ bs.length
    ∧ readHeader (bs.take (readHeader bs).2) = readHeader bs
    ∧ ((∃ l ∈ (readHeader bs).1, isSentinel l = true) →
        ∃ s, (readHeader bs).1.getLast? = some s ∧ isSentinel s = true)
    ∧ ((∀ l ∈ (readHeader bs).1, isSentinel l = false) → (readHeader bs).2 = bs.length) := by
  refine ⟨lexAux_dropLast bs [], ?_, ?_, lexAux_last bs [], ?_⟩
  · have h := lexAux_le bs []
    simpa using h
  · have h := lexAux_take bs []
    simp only [List.length_nil, Nat.sub_zero] at h
    exact h
  · intro h
    have h2 := lexAux_nosent bs [] h
    simpa using h2

/-- C5 witness: on a sentinel-terminated stream the sentinel is the last
returned line; on a stream without sentinel the whole stream is consumed. -/
theorem spec_C5_witness :
    (∃ s, (readHeader (strBytes "WIDTH 3\nDATA binary\nXYZ")).1.getLast? = some s
        ∧ isSentinel s = true)
    ∧ (readHeader (strBytes "WIDTH 3\nno sentinel")).2
        = (strBytes "WIDTH 3\nno sentinel").length :=
  ⟨(spec_C5 (strBytes "WIDTH 3\nDATA binary\nXYZ")).2.2.2.1 (by decide),
    (spec_C5 (strBytes "WIDTH 3\nno sentinel")).2.2.2.2 (by decide)⟩

/-! ## C6/C7: record decoding -/

/-- Byte span of field `j`: `sizes[j] * counts[j]` (0-defaulted). -/
def prodAt (ss cs : List Int) (j : Nat) : Int :=
  ss.getD j 0 * cs.getD j 0

/-- Sum of the byte spans of fields `j, …, j+n-1`. -/
def winSum (ss cs : List Int) (j n : Nat) : Int :=
  ((List.range n).map (fun t => prodAt ss cs (j + t))).sum

/-- Peeling the first field off a span window. -/
theorem winSum_succ (ss cs : List Int) (j n : Nat) :
    winSum ss cs j (n + 1) = prodAt ss cs j + winSum ss cs (j + 1) n := by
  unfold winSum
  rw [List.range_succ_eq_map, List.map_cons, List.sum_cons, List.map_map]
  congr 1
  congr 1
  apply List.map_congr_left
  intro t _
  show prodAt ss cs (j + (t + 1)) = prodAt ss cs (j + 1 + t)
  congr 1
  omega

/-- Nonnegative sizes and counts give nonnegative spans. -/
theorem prodAt_nonneg (ss cs : List Int) (hss : ∀ s ∈ ss, 0 ≤ s)
    (hcs : ∀ c ∈ cs, 0 ≤ c) (j : Nat) : 0 ≤ prodAt ss cs j := by
  unfold prodAt
  by_cases h1 : j < ss.length
  · by_cases h2 : j < cs.length
    · exact mul_nonneg (hss _ (List.get?_mem (get?_eq_some_getD 0 ss j h1)))
        (hcs _ (List.get?_mem (get?_eq_some_getD 0 cs j h2)))
    · rw [List.getD_eq_default cs 0 (by omega)]
      simp
  · rw [List.getD_eq_default ss 0 (by omega)]
    simp

/-- Span windows of nonnegative spans are nonnegative. -/
theorem winSum_nonneg (ss cs : List Int) (hss : ∀ s ∈ ss, 0 ≤ s)
    (hcs : ∀ c ∈ cs, 0 ≤ c) (j n : Nat) : 0 ≤ winSum ss cs j n := by
  apply List.sum_nonneg
  intro x hx
  simp only [List.mem_map] at hx
  rcases hx with ⟨t, _, rfl⟩
  exact prodAt_nonneg ss cs hss hcs _

/-- In-bounds Python slices are plain drop-and-take with exact length. -/
theorem pySlice_exact (l : List Nat) (a p : Int) (ha : 0 ≤ a) (hp : 0 ≤ p)
    (hb : a + p ≤ (l.length : Int)) :
    pySlice l a (a + p) = (l.drop a.toNat).take p.toNat
    ∧ (pySlice l a (a + p)).length = p.toNat := by
  unfold pySlice pyAdjust
  rw [if_neg (by omega : ¬ a < 0), if_neg (by omega : ¬ a + p < 0)]
  rw [show min a (l.length : Int) = a from by omega,
    show min (a + p) (l.length : Int) = a + p from by omega]
  rw [Int.toNat_add ha hp]
  constructor
  · rw [List.drop_take]
    congr 1
    omega
  · rw [List.drop_take, List.length_take, List.length_drop]
    rw [show a.toNat + p.toNat - a.toNat = p.toNat from by omega]
    rw [Nat.min_eq_left (by omega)]

/-- Spec-side restatement of the per-field decode policy (§4.4 of the spec):
field `m` is decoded iff its byte span is exactly 4 (little-endian IEEE-754
bits) or exactly 1 (unsigned byte); all other spans are omitted. -/
def specFieldPolicy (row : List Nat) (ss cs : List Int) (fl : List (List Nat))
    (j : Nat) (cur : Int) (m : Nat) : Option (List Nat × Val) :=
  if prodAt ss cs (j + m) = 4 then
    some (fl.getD m [], Val.f32 (leWord ((row.drop (cur + winSum ss cs j m).toNat).take 4)))
  else if prodAt ss cs (j + m) = 1 then
    some (fl.getD m [], Val.u8 (leWord ((row.drop (cur + winSum ss cs j m).toNat).take 1)))
  else none

/-- The policy at the head field. -/
theorem specFieldPolicy_zero (row : List Nat) (ss cs : List Int) (f : List Nat)
    (fl : List (List Nat)) (j : Nat) (cur : Int) :
    specFieldPolicy row ss cs (f :: fl) j cur 0
      = (if prodAt ss cs j = 4 then
          some (f, Val.f32 (leWord ((row.drop cur.toNat).take 4)))
        else if prodAt ss cs j = 1 then
          some (f, Val.u8 (leWord ((row.drop cur.toNat).take 1)))
        else none) := by
  unfold specFieldPolicy
  simp only [winSum, List.range_zero, List.map_nil, List.sum_nil, add_zero,
    Nat.add_zero, List.getD_cons_zero]

/-- The policy shifted past the head field. -/
theorem specFieldPolicy_shift (row : List Nat) (ss cs : List Int) (f : List Nat)
    (fl : List (List Nat)) (j : Nat) (cur : Int) (m : Nat) :
    specFieldPolicy row ss cs (f :: fl) j cur (m + 1)
      = specFieldPolicy row ss cs fl (j + 1) (cur + prodAt ss cs j) m := by
  unfold specFieldPolicy
  rw [winSum_succ]
  rw [show j + (m + 1) = j + 1 + m from by omega]
  rw [List.getD_cons_succ]
  rw [show cur + (prodAt ss cs j + winSum ss cs (j + 1) m)
      = cur + prodAt ss cs j + winSum ss cs (j + 1) m from by ring]

/-- `filterMap` respects pointwise-equal functions on the list. -/
theorem filterMap_congr_mem {α β : Type} (f g : α → Option β) :
    ∀ l : List α, (∀ a ∈ l, f a = g a) → l.filterMap f = l.filterMap g := by
  intro l
  induction l with
  | nil => intro h; rfl
  | cons a l ih =>
    intro h
    rw [List.filterMap_cons, List.filterMap_cons, h a (by simp),
      ih (fun x hx => h x (by simp [hx]))]

theorem decodeFields_spec (row : List Nat) (ss cs : List Int)
    (hss : ∀ s ∈ ss, 0 ≤ s) (hcs : ∀ c ∈ cs, 0 ≤ c) :
    ∀ (fl : List (List Nat)) (j : Nat) (cur : Int),
      j + fl.length ≤ ss.length → j + fl.length ≤ cs.length →
      0 ≤ cur → cur + winSum ss cs j fl.length ≤ (row.length : Int) →
      decodeFields row (some ss) (some cs) fl j cur
        = ((List.range fl.length).filterMap (specFieldPolicy row ss cs fl j cur), none) := by
  intro fl
  induction fl with
  | nil => intro j cur _ _ _ _; rfl
  | cons f fl ih =>
    intro j cur h1 h2 h3 h4
    simp only [List.length_cons] at h1 h2 h4
    have hsj := get?_eq_some_getD 0 ss j (by omega)
    have hcj := get?_eq_some_getD 0 cs j (by omega)
    have hpnn : 0 ≤ prodAt ss cs j := prodAt_nonneg ss cs hss hcs j
    have hwnn : 0 ≤ winSum ss cs (j + 1) fl.length := winSum_nonneg ss cs hss hcs _ _
    have hw := winSum_succ ss cs j fl.length
    have hroom : cur + prodAt ss cs j ≤ (row.length : Int) := by
      rw [hw] at h4
      omega
    obtain ⟨hsl1, hsl2⟩ := pySlice_exact row cur (prodAt ss cs j) h3 hpnn hroom
    have hrec := ih (j + 1) (cur + prodAt ss cs j) (by omega) (by omega)
      (by have := hpnn; omega) (by rw [hw] at h4; omega)
    simp only [List.length_cons]
    rw [List.range_succ_eq_map, List.filterMap_cons, List.filterMap_map]
    rw [filterMap_congr_mem (specFieldPolicy row ss cs (f :: fl) j cur ∘ Nat.succ)
      (specFieldPolicy row ss cs fl (j + 1) (cur + prodAt ss cs j))
      (List.range fl.length)
      (fun m _ => specFieldPolicy_shift row ss cs f fl j cur m)]
    rw [specFieldPolicy_zero]
    simp only [prodAt] at hsl1 hsl2 hrec hroom ⊢
    by_cases hp4 : ss.getD j 0 * cs.getD j 0 = 4
    · have hfd : pySlice row cur (cur + 4) = (row.drop cur.toNat).take 4 := by
        rw [hp4] at hsl1
        simpa using hsl1
      have hlen : ((row.drop cur.toNat).take 4).length = 4 := by
        rw [List.length_take, List.length_drop]
        rw [hp4] at hroom
        omega
      rw [hp4] at hrec
      simp only [decodeFields, hsj, hcj, hp4, hfd, hlen, hrec, reduceIte]
    · by_cases hp1 : ss.getD j 0 * cs.getD j 0 = 1
      · have hfd : pySlice row cur (cur + 1) = (row.drop cur.toNat).take 1 := by
          rw [hp1] at hsl1
          simpa using hsl1
        have hlen : ((row.drop cur.toNat).take 1).length = 1 := by
          rw [List.length_take, List.length_drop]
          rw [hp1] at hroom
          omega
        rw [hp1] at hrec
        simp only [decodeFields, hsj, hcj, hp1, hp4, hfd, hlen, hrec, reduceIte]
        norm_num
      · simp only [decodeFields, hsj, hcj, hp4, hp1, hrec, reduceIte, if_false]

/-- The zip-sum stride equals the full span window. -/
theorem zipsum_eq_winSum (ss cs : List Int) (n : Nat) (h1 : ss.length = n)
    (h2 : cs.length = n) :
    ((ss.zip cs).map (fun p => p.1 * p.2)).sum = winSum ss cs 0 n := by
  rw [zipsum_eq_rangesum ss cs (by omega)]
  unfold winSum
  rw [h1]
  apply congrArg
  apply List.map_congr_left
  intro t _
  simp [prodAt]

/-- The row-read loop decodes exactly `min n (available full strides)`
records and signals no error, given a valid aligned schema. -/
theorem decodeLoop_spec (rs : Int) (fl : List (List Nat)) (ss cs : List Int) (ds fs : Nat)
    (hss : ∀ s ∈ ss, 0 ≤ s) (hcs : ∀ c ∈ cs, 0 ≤ c)
    (hl1 : fl.length ≤ ss.length) (hl2 : fl.length ≤ cs.length)
    (hrs : rs = winSum ss cs 0 fl.length) (hpos : 0 < rs) :
    ∀ (n i : Nat) (rest : List Nat),
      (fs : Int) = (ds : Int) + (i : Int) * rs + (rest.length : Int) →
      ∃ recs, decodeLoop rs (some fl) (some ss) (some cs) ds fs n i rest = (recs, none)
        ∧ recs.length = min n (rest.length / rs.toNat) := by
  intro n
  induction n with
  | zero =>
    intro i rest hfs
    exact ⟨[], rfl, by simp⟩
  | succ n ihn =>
    intro i rest hfs
    by_cases hC : (rest.length : Int) < rs
    · have hcond : (ds : Int) + ((i : Int) + 1) * rs > (fs : Int) := by
        have he : ((i : Int) + 1) * rs = (i : Int) * rs + rs := by ring
        rw [he, hfs]
        linarith
      refine ⟨[], ?_, ?_⟩
      · simp only [decodeLoop, if_pos hcond]
      · rw [Nat.div_eq_of_lt (by omega)]
        simp
    · have hle : rs ≤ (rest.length : Int) := by omega
      have hcond : ¬ ((ds : Int) + ((i : Int) + 1) * rs > (fs : Int)) := by
        have he : ((i : Int) + 1) * rs = (i : Int) * rs + rs := by ring
        rw [he, hfs]
        linarith
      have hneg : ¬ rs < 0 := by omega
      have hrowlen : (rest.take rs.toNat).length = rs.toNat := by
        rw [List.length_take]
        rw [Nat.min_eq_left (by omega)]
      have hrow2 : ¬ (((rest.take rs.toNat).length : Int) < rs) := by
        rw [hrowlen]
        omega
      have hdf := decodeFields_spec (rest.take rs.toNat) ss cs hss hcs fl 0 0
        (by omega) (by omega) (by omega) (by rw [hrowlen]; omega)
      have hfs' : (fs : Int) = (ds : Int) + ((i + 1 : Nat) : Int) * rs
          + (((rest.drop rs.toNat).length : Nat) : Int) := by
        rw [List.length_drop]
        have hc : (rs.toNat : Int) = rs := by omega
        rw [Nat.cast_sub (by omega), hc]
        push_cast
        ring_nf
        ring_nf at hfs
        linarith
      rcases ihn (i + 1) (rest.drop rs.toNat) hfs' with ⟨recs, hloop, hlen⟩
      refine ⟨(List.range fl.length).filterMap
          (specFieldPolicy (rest.take rs.toNat) ss cs fl 0 0) :: recs, ?_, ?_⟩
      · simp only [decodeLoop, hcond, hneg, hrow2, hrowlen, hdf, hloop, reduceIte, if_false]
        rw [if_neg (by omega : ¬ ((rs.toNat : Int) < rs))]
      · have h9 : rs.toNat ≤ rest.length := by omega
        obtain ⟨m, hm⟩ : ∃ m, rest.length = m + rs.toNat := ⟨rest.length - rs.toNat, by omega⟩
        have hq : rest.length / rs.toNat = (rest.length - rs.toNat) / rs.toNat + 1 := by
          rw [hm, Nat.add_div_right _ (by omega), Nat.add_sub_cancel]
        simp only [List.length_cons, hlen, List.length_drop, hq]
        exact (Nat.succ_min_succ n _).symm

/-- C6: for a binary-encoded file with a valid aligned schema the decoder
returns `min (min 3 points) (available full strides)` records — at most
`min 3 points` attempts, stopping silently at end-of-file or a short read —
and signals no error. -/
theorem spec_C6 (info : HeaderInfo) (rs : Int) (offs : List Int) (fl : List (List Nat))
    (ss cs : List Int) (payload : List Nat) (ds fs : Nat)
    (hdt : info.data_type = some (strBytes "binary"))
    (hf : info.fields = some fl) (hs : info.sizes = some ss) (hc : info.counts = some cs)
    (hl1 : ss.length = fl.length) (hl2 : cs.length = fl.length)
    (hss : ∀ s ∈ ss, 0 ≤ s) (hcs : ∀ c ∈ cs, 0 ≤ c)
    (hrs : rs = ((ss.zip cs).map (fun p => p.1 * p.2)).sum) (hpos : 0 < rs)
    (hfs : fs = ds + payload.length) :
    ∃ recs, decodeStage info (some (rs, offs)) payload ds fs = (recs, none)
      ∧ recs.length = min (min 3 (info.points.getD 0)).toNat (payload.length / rs.toNat) := by
  have hgate : info.data_type = some (strBytes "binary")
      ∨ info.data_type = some (strBytes "binary_compressed") := Or.inl hdt
  have hrs' : rs = winSum ss cs 0 fl.length := by
    rw [hrs]
    exact zipsum_eq_winSum ss cs fl.length hl1 hl2
  by_cases hk : (min 3 (info.points.getD 0)).toNat = 0
  · refine ⟨[], ?_, ?_⟩
    · simp only [decodeStage, if_pos hgate, hk, reduceIte]
    · rw [hk]
      simp
  · have hfs0 : (fs : Int) = (ds : Int) + (0 : Int) * rs + (payload.length : Int) := by
      rw [hfs]
      push_cast
      ring
    rcases decodeLoop_spec rs fl ss cs ds fs hss hcs (by omega) (by omega) hrs' hpos
      (min 3 (info.points.getD 0)).toNat 0 payload hfs0 with ⟨recs, hloop, hlen⟩
    refine ⟨recs, ?_, hlen⟩
    simp only [decodeStage, if_pos hgate, hk, reduceIte, if_false, hf, hs, hc, hloop]

/-- C7: (i) per decoded record, a field whose byte span is exactly 4 decodes
as little-endian IEEE-754 float bits, a 1-byte span as an unsigned byte, and
any other span is omitted — exactly the spec-side `specFieldPolicy`; (ii) the
`TYPE` tags never influence decoding. -/
theorem spec_C7 :
    (∀ (row : List Nat) (ss cs : List Int) (fl : List (List Nat)),
      (∀ s ∈ ss, 0 ≤ s) → (∀ c ∈ cs, 0 ≤ c) →
      fl.length ≤ ss.length → fl.length ≤ cs.length →
      winSum ss cs 0 fl.length ≤ (row.length : Int) →
      decodeFields row (some ss) (some cs) fl 0 0
        = ((List.range fl.length).filterMap (specFieldPolicy row ss cs fl 0 0), none))
    ∧ (∀ (info : HeaderInfo) (t : Option (List (List Nat)))
        (geom : Option (Int × List Int)) (payload : List Nat) (ds fs : Nat),
        decodeStage { info with types := t } geom payload ds fs
          = decodeStage info geom payload ds fs) := by
  constructor
  · intro row ss cs fl hss hcs hb1 hb2 hb3
    exact decodeFields_spec row ss cs hss hcs fl 0 0 (by omega) (by omega) (by omega)
      (by omega)
  · intro info t geom payload ds fs
    rfl

/-- Concrete schema for the C6 witness (Scenario D's header). -/
def infoC6 : HeaderInfo :=
  ⟨some [strBytes "x"], some [4], none, some [1], none, none, some 100000,
    some (strBytes "binary")⟩

/-- C6 witness (Scenario D): 100000 declared points but one stride of
payload gives exactly 1 record and no error. -/
theorem spec_C6_witness :
    ∃ recs, decodeStage infoC6 (some (4, [0])) [0, 0, 128, 63] 0 4 = (recs, none)
      ∧ recs.length = 1 := by
  rcases spec_C6 infoC6 4 [0] [strBytes "x"] [4] [1] [0, 0, 128, 63] 0 4
    rfl rfl rfl rfl (by decide) (by decide) (by decide) (by decide) (by decide)
    (by decide) (by decide) with ⟨recs, h1, h2⟩
  refine ⟨recs, h1, ?_⟩
  rw [h2]
  decide

/-- C7 witness: a 2-byte field is omitted while the following 4-byte field
decodes as the float bits at its offset; TYPE tags are absent throughout. -/
theorem spec_C7_witness :
    decodeFields [7, 8, 0, 0, 128, 63] (some [2, 4]) (some [1, 1])
        [strBytes "pad", strBytes "x"] 0 0
      = ([(strBytes "x", Val.f32 1065353216)], none) := by
  have h := spec_C7.1 [7, 8, 0, 0, 128, 63] [2, 4] [1, 1]
    [strBytes "pad", strBytes "x"] (by decide) (by decide) (by decide) (by decide)
    (by decide)
  rw [h]
  decide

/-! ## C8: data segment bounds -/

/-- C8: when a sentinel line terminated the header, the reported data-start
offset is exactly the lexer's stop position (immediately after that line),
it never exceeds the file size, and the data-segment length is the file
size minus the start offset. -/
theorem spec_C8 (bs : List Nat) (r : Report) (h : analyze bs = .ok r)
    (hsent : ∃ l ∈ r.headerLines, isSentinel l = true) :
    r.dataStart ≤ bs.length ∧ r.dataStart + r.dataSize = bs.length
    ∧ readHeader bs = (r.headerLines, r.dataStart) := by
  have hle : (readHeader bs).2 ≤ bs.length := by
    have h := lexAux_le bs []
    simpa using h
  unfold analyze at h
  simp only [] at h
  rcases hp : parseHeaderInfo (readHeader bs).1 with e | info
  · simp only [hp] at h
    exact Except.noConfusion h
  · simp only [hp] at h
    rcases hg : computeGeometry info with e | geom
    · simp only [hg] at h
      exact Except.noConfusion h
    · simp only [hg, Except.ok.injEq] at h
      subst h
      dsimp only
      exact ⟨hle, by omega, Prod.mk.eta.symm⟩

/-- Concrete file for the C8 witness. -/
def bsC8 : List Nat :=
  strBytes "DATA binary\nAB"

/-- Concrete report produced for `bsC8`. -/
def rC8 : Report :=
  ⟨14, [strBytes "DATA binary"],
    ⟨none, none, none, none, none, none, none, some (strBytes "binary")⟩,
    none, 12, 2, .binaryPlain, [], none⟩

/-- C8 witness: on a 14-byte file whose header is the single sentinel line,
dataStart is 12 and dataSize is 2. -/
theorem spec_C8_witness :
    rC8.dataStart ≤ bsC8.length ∧ rC8.dataStart + rC8.dataSize = bsC8.length
    ∧ readHeader bsC8 = (rC8.headerLines, rC8.dataStart) :=
  spec_C8 bsC8 rC8 (by rfl) (by decide)

/-! ## C9: float bit-pattern round trip -/

/-- Little-endian encoding of a 32-bit word into 4 bytes. -/
def encodeLE32 (v : Nat) : List Nat :=
  [v % 256, v / 256 % 256, v / 65536 % 256, v / 16777216 % 256]

/-- Decoding inverts the 4-byte little-endian encoding. -/
theorem leWord_encodeLE32 (v : Nat) (hv : v < 4294967296) :
    leWord (encodeLE32 v) = v := by
  simp only [encodeLE32, leWord]
  omega

/-- C9: a 32-bit word encoded as 4 little-endian float bytes at offset `o`
of a synthetic row is recovered bit-for-bit by the field decoder. -/
theorem spec_C9 (v : Nat) (o : Nat) (pre post nm : List Nat)
    (hv : v < 4294967296) (ho : pre.length = o) :
    decodeFields (pre ++ encodeLE32 v ++ post) (some [4]) (some [1]) [nm] 0 (o : Int)
      = ([(nm, Val.f32 v)], none) := by
  have hlenrow : (pre ++ encodeLE32 v ++ post).length = o + 4 + post.length := by
    simp only [List.length_append, encodeLE32, List.length_cons, List.length_nil, ho]
  have hsl := pySlice_exact (pre ++ encodeLE32 v ++ post) (o : Int) 4
    (by omega) (by omega) (by rw [hlenrow]; push_cast; omega)
  have hdrop : (pre ++ encodeLE32 v ++ post).drop o = encodeLE32 v ++ post := by
    rw [List.append_assoc, ← ho, List.drop_left]
  have htake : ((pre ++ encodeLE32 v ++ post).drop o).take 4 = encodeLE32 v := by
    rw [hdrop, show (4 : Nat) = (encodeLE32 v).length from by simp [encodeLE32],
      List.take_left]
  have hfd : pySlice (pre ++ encodeLE32 v ++ post) (o : Int) ((o : Int) + 4)
      = encodeLE32 v := by
    rw [hsl.1]
    simp only [Int.toNat_ofNat, Int.toNat_natCast]
    exact htake
  have hfdlen : (encodeLE32 v).length = 4 := by simp [encodeLE32]
  have h40 : ([4] : List Int).get? 0 = some 4 := rfl
  have h10 : ([1] : List Int).get? 0 = some 1 := rfl
  have hm4 : (4 : Int) * 1 = 4 := by norm_num
  simp only [decodeFields, h40, h10, hm4, hfd, hfdlen, reduceIte,
    leWord_encodeLE32 v hv]

/-- C9 witness: the bits of 1.0f at offset 2 round-trip. -/
theorem spec_C9_witness :
    decodeFields ([9, 9] ++ encodeLE32 1065353216 ++ [5]) (some [4]) (some [1])
        [strBytes "x"] 0 ((2 : Nat) : Int)
      = ([(strBytes "x", Val.f32 1065353216)], none) :=
  spec_C9 1065353216 2 [9, 9] [5] (strBytes "x") (by decide) (by decide)

/-! ## C10: missing POINTS defaults to zero rows -/

/-- Lines that never fire the `POINTS` branch leave `points` untouched. -/
theorem parseLines_points (lines : List (List Nat)) :
    ∀ (i0 info : HeaderInfo),
      (∀ l ∈ lines, (strBytes "POINTS").isPrefixOf l = false) →
      parseLines i0 lines = .ok info → info.points = i0.points := by
  induction lines with
  | nil =>
    intro i0 info _ h
    cases h
    rfl
  | cons l ls ih =>
    intro i0 info hno h
    have hl := hno l (by simp)
    have hstep : ∀ i1, processLine i0 l = .ok i1 → i1.points = i0.points := by
      intro i1 hokk
      unfold processLine at hokk
      split_ifs at hokk with hf hsz hty hcn hw hh hp hd
      · simp only [Except.ok.injEq] at hokk
        subst hokk
        rfl
      · rcases hm : ((pySplit l).tail).mapM pyInt with e | vs
        · simp only [hm] at hokk
          exact Except.noConfusion hokk
        · simp only [hm, Except.ok.injEq] at hokk
          subst hokk
          rfl
      · simp only [Except.ok.injEq] at hokk
        subst hokk
        rfl
      · rcases hm : ((pySplit l).tail).mapM pyInt with e | vs
        · simp only [hm] at hokk
          exact Except.noConfusion hokk
        · simp only [hm, Except.ok.injEq] at hokk
          subst hokk
          rfl
      · rcases hm : (pySplit l).get? 1 with _ | t
        · simp only [hm] at hokk
          exact Except.noConfusion hokk
        · simp only [hm] at hokk
          rcases hm2 : pyInt t with e | vv
          · simp only [hm2] at hokk
            exact Except.noConfusion hokk
          · simp only [hm2, Except.ok.injEq] at hokk
            subst hokk
            rfl
      · rcases hm : (pySplit l).get? 1 with _ | t
        · simp only [hm] at hokk
          exact Except.noConfusion hokk
        · simp only [hm] at hokk
          rcases hm2 : pyInt t with e | vv
          · simp only [hm2] at hokk
            exact Except.noConfusion hokk
          · simp only [hm2, Except.ok.injEq] at hokk
            subst hokk
            rfl
      · rw [hl] at hp
        cases hp
      · rcases hm : (pySplit l).get? 1 with _ | t
        · simp only [hm] at hokk
          exact Except.noConfusion hokk
        · simp only [hm, Except.ok.injEq] at hokk
          subst hokk
          rfl
      · simp only [Except.ok.injEq] at hokk
        subst hokk
        rfl
    unfold parseLines at h
    rcases hpl : processLine i0 l with e | i1 <;> rw [hpl] at h
    · cases h
    · rw [ih i1 info (fun x hx => hno x (by simp [hx])) h, hstep i1 hpl]

/-- C10: a binary-encoded header without any `POINTS` line parses with
`points` unset, the declared point count defaults to 0, and the decoder
attempts `min(3, 0) = 0` rows: no records and no error. -/
theorem spec_C10 (lines : List (List Nat)) (info : HeaderInfo)
    (geom : Option (Int × List Int)) (payload : List Nat) (ds fs : Nat)
    (hparse : parseHeaderInfo lines = .ok info)
    (hnop : ∀ l ∈ lines, (strBytes "POINTS").isPrefixOf l = false)
    (hdt : info.data_type = some (strBytes "binary")) :
    info.points = none ∧ (min 3 (info.points.getD 0)).toNat = 0
    ∧ decodeStage info geom payload ds fs = ([], none) := by
  have hpts : info.points = none := by
    rw [parseLines_points lines emptyInfo info hnop hparse]
    rfl
  refine ⟨hpts, ?_, ?_⟩
  · rw [hpts]
    rfl
  · simp only [decodeStage, if_pos (Or.inl hdt), hpts]
    rfl

/-- Concrete header lines for the C10 witness. -/
def linesC10 : List (List Nat) :=
  [strBytes "FIELDS x", strBytes "SIZE 4", strBytes "COUNT 1", strBytes "DATA binary"]

/-- Concrete parsed schema for the C10 witness. -/
def infoC10 : HeaderInfo :=
  ⟨some [strBytes "x"], some [4], none, some [1], none, none, none,
    some (strBytes "binary")⟩

/-- C10 witness: the POINTS-less binary header decodes zero records without
error. -/
theorem spec_C10_witness :
    infoC10.points = none ∧ (min 3 (infoC10.points.getD 0)).toNat = 0
    ∧ decodeStage infoC10 (some (4, [0])) [1, 2, 3, 4] 0 4 = ([], none) :=
  spec_C10 linesC10 infoC10 (some (4, [0])) [1, 2, 3, 4] 0 4 (by rfl) (by decide) rfl
